import Mathlib

/-!
Verification of the fc-dll fallback resolver

A shallow embedding of `src/lib.rs` of fedi-to/fc-dll. Strings are modelled
as `List Char`; Rust byte indices into UTF-8 strings coincide with character
indices at every point the code slices (all slice boundaries sit at the first
`:`, an ASCII character, or at the string ends), so the character-level model
is faithful.

The own code of the repository (`is_scheme_invalid`, the membership
chain of `COMPONENT`, `get_fallback`, `fc_open_uri` / `fc_open_uri_inner`) is translated
directly from the source.  The external collaborators — the WHATWG URL
parser of the `url` crate, the `CONTROLS` set of the `percent_encoding` facility
and `utf8_percent_encode`, the C-string UTF-8 decoding, and the Windows
launcher — are not part of the repository; they are modelled from the
description the specification gives of their interfaces, and each such definition is
marked `Modelled from the spec:` in its doc comment.
-/

namespace FcDll

/-- Error kind returned when trying to find the fallback protocol handler
(source `enum FallbackError`). -/
inductive FallbackError where
  /-- the given URL, while valid, does not provide a fallback handler. -/
  | NoHandler
  /-- the given target is not an URL. -/
  | NotAnUrl
deriving DecidableEq, Repr

deriving instance DecidableEq for Except

/-- Rust `char::is_ascii_lowercase`. -/
def isAsciiLowercase (c : Char) : Bool :=
  'a' ≤ c && c ≤ 'z'

/-- Source `is_scheme_invalid`: valid schemes are non-empty and entirely
ASCII lowercase, so invalid schemes are empty or contain
non-ascii-lowercase (`trim_start_matches(pred).is_empty` is
`(dropWhile pred).isEmpty`). -/
def is_scheme_invalid (scheme : List Char) : Bool :=
  scheme.isEmpty || !(scheme.dropWhile isAsciiLowercase).isEmpty

/-- Modelled from the spec: the `CONTROLS` set of the external percent-encoding facility, "all C0 control characters". -/
def CONTROLS (b : Nat) : Bool := b < 0x20

/-- Source `COMPONENT`: start with `CONTROLS`, then add query, path,
userinfo and component characters, in the order of the source (each numeral is
the code of the byte literal added in the source: space, `"`, `#`, `<`,
`>`, then `?`, `` ` ``, `{`, `}`, then `/`, `:`, `;`, `=`, `@`, `[`, `\`,
`]`, `^`, `|`, then `$`, `%`, `&`, `+`, `,`). -/
def COMPONENT (b : Nat) : Bool :=
  CONTROLS b
  || b = 0x20 || b = 0x22 || b = 0x23 || b = 0x3C || b = 0x3E
  || b = 0x3F || b = 0x60 || b = 0x7B || b = 0x7D
  || b = 0x2F || b = 0x3A || b = 0x3B || b = 0x3D || b = 0x40
  || b = 0x5B || b = 0x5C
  || b = 0x5D || b = 0x5E || b = 0x7C
  || b = 0x24 || b = 0x25 || b = 0x26 || b = 0x2B || b = 0x2C

/-- Uppercase hexadecimal digit for a value below 16. -/
def hexDigitChar (n : Nat) : Char :=
  if n < 10 then Char.ofNat (0x30 + n) else Char.ofNat (0x37 + n)

/-- Modelled from the spec: how the external percent-encoding facility
treats one character of the input.  A character in the encode set is
escaped as `%XX`; "bytes outside this set are passed through unescaped"
(non-ASCII characters are outside the set, so they pass through). -/
def encodeChar (c : Char) : List Char :=
  if c.toNat < 0x80 && COMPONENT c.toNat then
    ['%', hexDigitChar (c.toNat / 16), hexDigitChar (c.toNat % 16)]
  else [c]

/-- Modelled from the spec: the external `utf8_percent_encode`, applied to
the whole input with the `COMPONENT` set. -/
def utf8_percent_encode (s : List Char) : List Char :=
  s.flatMap encodeChar

/-- The structured URL value of the external WHATWG URL parser: scheme,
credentials, host, port, path, query, fragment. -/
structure Url where
  scheme : List Char
  username : List Char
  password : Option (List Char)
  host : List Char
  port : Option Nat
  path : List Char
  query : Option (List Char)
  fragment : Option (List Char)
deriving DecidableEq, Repr

/-- A character that ends the authority section of an `https://` URL:
`/` and `\` start the path, `?` the query, `#` the fragment. -/
def authEndChar (c : Char) : Bool :=
  c = '/' || c = '\\' || c = '?' || c = '#'

/-- The part of an authority after the last `@` (the host-and-port part);
the whole authority when it has no `@`. -/
def afterLastAt (l : List Char) : List Char :=
  (l.reverse.takeWhile (· ≠ '@')).reverse

/-- The part of an authority before the last `@` (the userinfo);
empty when it has no `@`. -/
def beforeLastAt (l : List Char) : List Char :=
  ((l.reverse.dropWhile (· ≠ '@')).drop 1).reverse

/-- Modelled from the spec: how the external parser reads a port string.
`some none` means no explicit port in the parsed value (an empty port
string, or the https default 443); `none` means a parse failure. -/
def parsePort (s : List Char) : Option (Option Nat) :=
  if s.isEmpty then some none
  else if s.all (·.isDigit) then
    let v := s.foldl (fun a c => a * 10 + (c.toNat - 0x30)) 0
    if v < 65536 then (if v = 443 then some none else some (some v)) else none
  else none

/-- Modelled from the spec: split a host-and-port string at its last colon
and validate both halves.  An empty host is a parse failure. -/
def parseHostPort (hp : List Char) : Option (List Char × Option Nat) :=
  if hp.contains ':' then
    let host := ((hp.reverse.dropWhile (· ≠ ':')).drop 1).reverse
    let portStr := (hp.reverse.takeWhile (· ≠ ':')).reverse
    if host.isEmpty then none
    else (parsePort portStr).map (fun p => (host, p))
  else if hp.isEmpty then none
  else some (hp, none)

/-- Modelled from the spec: the external WHATWG URL parser, on the `https`
inputs this program hands it.  The authority runs to the first `/`, `\`,
`?` or `#` (a backslash is treated as a path separator, as the edge
case of the spec documents); an empty host is a parse failure; in the path a `\` is
normalized to `/`; query and fragment are taken verbatim. -/
def url_parse (s : List Char) : Option Url :=
  if s.take 8 = "https://".toList then
    let rest := s.drop 8
    let auth := rest.takeWhile (fun c => !(authEndChar c))
    let after := rest.dropWhile (fun c => !(authEndChar c))
    let userinfo := beforeLastAt auth
    match parseHostPort (afterLastAt auth) with
    | none => none
    | some (host, port) =>
      let beforeHash := after.takeWhile (· ≠ '#')
      let path := (beforeHash.takeWhile (· ≠ '?')).map (fun c => if c = '\\' then '/' else c)
      some { scheme := "https".toList
           , username := userinfo.takeWhile (· ≠ ':')
           , password :=
               if userinfo.contains ':' then some ((userinfo.dropWhile (· ≠ ':')).drop 1)
               else none
           , host := host
           , port := port
           , path := if path.isEmpty then "/".toList else path
           , query :=
               if beforeHash.contains '?' then some ((beforeHash.dropWhile (· ≠ '?')).drop 1)
               else none
           , fragment :=
               if after.contains '#' then some ((after.dropWhile (· ≠ '#')).drop 1)
               else none }
  else none

/-- Modelled from the spec: the `set_path` mutator of the parser. -/
def set_path (u : Url) (p : List Char) : Url := { u with path := p }

/-- Modelled from the spec: the `set_username` mutator of the parser. -/
def set_username (u : Url) (n : List Char) : Url := { u with username := n }

/-- Modelled from the spec: the `set_password` mutator of the parser. -/
def set_password (u : Url) (p : Option (List Char)) : Url := { u with password := p }

/-- Modelled from the spec: the `set_query` mutator of the parser, "replacing
any existing query". -/
def set_query (u : Url) (q : Option (List Char)) : Url := { u with query := q }

/-- Modelled from the spec: the `set_fragment` mutator of the parser. -/
def set_fragment (u : Url) (f : Option (List Char)) : Url := { u with fragment := f }

/-- Decimal digits of a natural number, structurally recursive on a fuel
argument so that it reduces definitionally (`n + 1` fuel always
suffices since `n / 10 < n` for `n ≥ 10`). -/
def natDigitsAux : Nat → Nat → List Char
  | _, 0 => []
  | n, fuel + 1 =>
    if n < 10 then [Char.ofNat (0x30 + n)]
    else natDigitsAux (n / 10) fuel ++ [Char.ofNat (0x30 + n % 10)]

/-- Decimal digits of a natural number. -/
def natDigits (n : Nat) : List Char :=
  natDigitsAux n (n + 1)

/-- Modelled from the spec: how the external parser serializes a URL
back to a string (`url.into()`). -/
def url_serialize (u : Url) : List Char :=
  u.scheme ++ "://".toList
  ++ (if u.username.isEmpty && u.password.isNone then []
      else u.username ++ (match u.password with | some pw => ':' :: pw | none => []) ++ ['@'])
  ++ u.host
  ++ (match u.port with | some p => ':' :: natDigits p | none => [])
  ++ u.path
  ++ (match u.query with | some q => '?' :: q | none => [])
  ++ (match u.fragment with | some f => '#' :: f | none => [])

/-- Source `get_fallback`: attempts to find a fallback protocol handler for
the given target URL.  Mirrors the source line by line: find the first `:`;
the part before it must start with `web+` and have a valid scheme after
that prefix; replace `web+scheme` with `https`
(`replace_range(0..4+scheme.len(), "https")`); require `https://` and
reject `https:///` and `https://\`; parse; set the well-known path, clear
credentials, set the `target=` query, clear the fragment; serialize.

The body after the `find(':')` succeeds is split into its own definition
(`get_fallback_scheme_found`) so proofs can case on the colon position;
`get_fallback` itself is the composition, exactly as in the source. -/
def get_fallback_scheme_found (target : List Char) (colon : Nat) :
    Except FallbackError (List Char) :=
  let schemeFull := target.take colon
  if schemeFull.take 4 ≠ "web+".toList then .error .NotAnUrl
  else
    let scheme := schemeFull.drop 4
    if is_scheme_invalid scheme then .error .NotAnUrl
    else
      let as_if_https := "https".toList ++ target.drop (4 + scheme.length)
      if as_if_https.take 8 ≠ "https://".toList then .error .NoHandler
      else if as_if_https.take 9 = "https:///".toList
           ∨ as_if_https.take 9 = "https://\\".toList then .error .NoHandler
      else
        match url_parse as_if_https with
        | none => .error .NoHandler
        | some url =>
          let url := set_path url "/.well-known/protocol-handler".toList
          let url := set_username url []
          let url := set_password url none
          let params := "target=".toList ++ utf8_percent_encode target
          let url := set_query url (some params)
          let url := set_fragment url none
          .ok (url_serialize url)

def get_fallback (target : List Char) : Except FallbackError (List Char) :=
  match target.findIdx? (· = ':') with
  | none => .error .NotAnUrl
  | some colon => get_fallback_scheme_found target colon

/-- The tail of `get_fallback` once scheme validation has succeeded, with
the rewritten string expressed through `dropWhile`: `https` in place of
everything before the first colon. -/
def gfTail (t : List Char) : Except FallbackError (List Char) :=
  let as_if_https := "https".toList ++ t.dropWhile (· ≠ ':')
  if as_if_https.take 8 ≠ "https://".toList then .error .NoHandler
  else if as_if_https.take 9 = "https:///".toList
       ∨ as_if_https.take 9 = "https://\\".toList then .error .NoHandler
  else
    match url_parse as_if_https with
    | none => .error .NoHandler
    | some url =>
      .ok (url_serialize
        (set_fragment
          (set_query
            (set_password
              (set_username (set_path url "/.well-known/protocol-handler".toList) [])
              none)
            (some ("target=".toList ++ utf8_percent_encode t)))
          none))

/-! The dispatch entry point (`fc_open_uri`) -/

/-- Whether a byte is a UTF-8 continuation byte (`0x80`–`0xBF`). -/
def isUtf8Cont (b : Nat) : Bool := 0x80 ≤ b && b ≤ 0xBF

/-- Modelled from the spec: UTF-8 decoding of the foreign byte buffer
(`CStr::to_str` — external standard-library code), validating per the
UTF-8 rules: overlong forms, surrogate code points and values above
`U+10FFFF` are rejected. -/
def utf8Decode : List Nat → Option (List Char)
  | [] => some []
  | b :: rest =>
    if b < 0x80 then
      (utf8Decode rest).map (fun cs => Char.ofNat b :: cs)
    else if 0xC2 ≤ b && b ≤ 0xDF then
      match rest with
      | b2 :: rest2 =>
        if isUtf8Cont b2 then
          (utf8Decode rest2).map (fun cs =>
            Char.ofNat ((b - 0xC0) * 0x40 + (b2 - 0x80)) :: cs)
        else none
      | [] => none
    else if 0xE0 ≤ b && b ≤ 0xEF then
      match rest with
      | b2 :: b3 :: rest3 =>
        if (if b = 0xE0 then decide (0xA0 ≤ b2 && b2 ≤ 0xBF)
            else if b = 0xED then decide (0x80 ≤ b2 && b2 ≤ 0x9F)
            else isUtf8Cont b2) && isUtf8Cont b3 then
          (utf8Decode rest3).map (fun cs =>
            Char.ofNat ((b - 0xE0) * 0x1000 + (b2 - 0x80) * 0x40 + (b3 - 0x80)) :: cs)
        else none
      | _ => none
    else if 0xF0 ≤ b && b ≤ 0xF4 then
      match rest with
      | b2 :: b3 :: b4 :: rest4 =>
        if (if b = 0xF0 then decide (0x90 ≤ b2 && b2 ≤ 0xBF)
            else if b = 0xF4 then decide (0x80 ≤ b2 && b2 ≤ 0x8F)
            else isUtf8Cont b2) && isUtf8Cont b3 && isUtf8Cont b4 then
          (utf8Decode rest4).map (fun cs =>
            Char.ofNat ((b - 0xF0) * 0x40000 + (b2 - 0x80) * 0x1000
              + (b3 - 0x80) * 0x40 + (b4 - 0x80)) :: cs)
        else none
      | _ => none
    else none

/-- Modelled from the spec: the host platform facilities used by the
dispatch entry point, as synchronous-outcome oracles — whether
`Uri::CreateUri` accepts a string, whether `LauncherOptions::new`,
`SetFallbackUri` and the synchronous part of `LaunchUriWithOptionsAsync`
succeed.  The asynchronous outcome of the launch is not modelled: the
code does not observe it. -/
structure Platform where
  createUri : List Char → Bool
  newOptionsOk : Bool
  setFallbackOk : List Char → Bool
  launchOk : List Char → List Char → Bool

/-- Source `fc_open_uri_inner`: compute the fallback, parse the original
and the fallback into platform URIs, build launcher options, set the
fallback URI, launch; any `?` failure short-circuits. -/
def fc_open_uri_inner (p : Platform) (uri : List Char) : Bool :=
  match get_fallback uri with
  | .error _ => false
  | .ok fallback =>
    p.createUri uri && p.createUri fallback && p.newOptionsOk
      && p.setFallbackOk fallback && p.launchOk uri fallback

/-- Source `fc_open_uri`: decode the C string as UTF-8 (failure → `0`),
then `1` when `fc_open_uri_inner` succeeds and `0` when it fails. -/
def fc_open_uri (p : Platform) (bytes : List Nat) : Int :=
  match utf8Decode bytes with
  | none => 0
  | some uri => if fc_open_uri_inner p uri then 1 else 0

/-! Claim-side predicates (written from the words of the claims) -/

/-- The condition under which C2 says `get_fallback` returns `NotAnUrl`:
no colon, or the substring before the first colon does not start with
`web+`, or the scheme name between `web+` and the colon is empty or
contains a character that is not an ASCII lowercase letter. -/
def notAnUrlSpec (t : List Char) : Prop :=
  ':' ∉ t ∨
  (t.takeWhile (· ≠ ':')).take 4 ≠ "web+".toList ∨
  ((t.takeWhile (· ≠ ':')).drop 4 = [] ∨
   ∃ c ∈ (t.takeWhile (· ≠ ':')).drop 4, isAsciiLowercase c = false)

/-- The hypothesis of C3, in the words of the claim: the input passes scheme
validation — first colon present, `web+` prefix, non-empty
all-lowercase-ASCII scheme name. -/
def schemeValidSpec (t : List Char) : Prop :=
  ':' ∈ t ∧
  (t.takeWhile (· ≠ ':')).take 4 = "web+".toList ∧
  (t.takeWhile (· ≠ ':')).drop 4 ≠ [] ∧
  ∀ c ∈ (t.takeWhile (· ≠ ':')).drop 4, isAsciiLowercase c = true

/-- The "string rewritten with prefix `https`" of the claims: the input with
everything before the first colon replaced by `https`. -/
def rewrittenSpec (t : List Char) : List Char :=
  "https".toList ++ t.dropWhile (· ≠ ':')

/-- The condition under which C3 says `get_fallback` returns `NoHandler`:
the rewritten string does not start with `https://`, or starts with
`https:///`, or starts with `https://\`, or the external URL parser
rejects it. -/
def noHandlerSpec (t : List Char) : Prop :=
  (rewrittenSpec t).take 8 ≠ "https://".toList ∨
  (rewrittenSpec t).take 9 = "https:///".toList ∨
  (rewrittenSpec t).take 9 = "https://\\".toList ∨
  url_parse (rewrittenSpec t) = none

/-- The enumeration in C4 of the `COMPONENT` set: the C0 controls plus the
bytes the claim lists. -/
def componentClaimSet (b : Nat) : Prop :=
  b < 0x20 ∨
  b ∈ [0x20, 0x22, 0x23, 0x3C, 0x3E, 0x3F, 0x60, 0x7B, 0x7D,
       0x2F, 0x3A, 0x3B, 0x3D, 0x40, 0x5B, 0x5C, 0x5D, 0x5E, 0x7C,
       0x24, 0x25, 0x26, 0x2B, 0x2C]

instance (b : Nat) : Decidable (componentClaimSet b) := by
  unfold componentClaimSet
  exact inferInstance

/-- The enumeration in C8 of the failure causes inside `fc_open_uri_inner`:
`get_fallback` fails with either error kind, or a platform step fails. -/
def dispatchFails (p : Platform) (uri : List Char) : Prop :=
  (∃ e, get_fallback uri = .error e) ∨
  ∃ fb, get_fallback uri = .ok fb ∧
    (p.createUri uri = false ∨ p.createUri fb = false ∨ p.newOptionsOk = false ∨
     p.setFallbackOk fb = false ∨ p.launchOk uri fb = false)

/-! Bridge lemmas: `findIdx?` versus `takeWhile` / `dropWhile`

Rust's `target.find(':')` is `findIdx? (· = ':')`; slicing at that index is
`take` / `drop`, which on the first-hit index agree with `takeWhile` /
`dropWhile` of the complement predicate. -/

theorem findIdx?_cons_zero {α} (p : α → Bool) (x : α) (xs : List α) :
    (x :: xs).findIdx? p = if p x then some 0 else (xs.findIdx? p).map (· + 1) := by
  simp [List.findIdx?_cons]

theorem findIdx?_some_lt_length {α} {p : α → Bool} :
    ∀ {l : List α} {i : Nat}, l.findIdx? p = some i → i < l.length := by
  intro l
  induction l with
  | nil => intro i h; simp [List.findIdx?] at h
  | cons x xs ih =>
    intro i h
    rw [findIdx?_cons_zero] at h
    by_cases hx : p x
    · simp [hx] at h
      subst h
      simp
    · simp [hx] at h
      obtain ⟨j, hj, rfl⟩ := h
      have := ih hj
      simp only [List.length_cons]
      omega

theorem take_findIdx? {α} {p : α → Bool} :
    ∀ {l : List α} {i : Nat}, l.findIdx? p = some i →
      l.take i = l.takeWhile (fun a => !p a) := by
  intro l
  induction l with
  | nil => intro i h; simp [List.findIdx?] at h
  | cons x xs ih =>
    intro i h
    rw [findIdx?_cons_zero] at h
    by_cases hx : p x
    · simp [hx] at h
      subst h
      simp [List.takeWhile_cons, hx]
    · simp [hx] at h
      obtain ⟨j, hj, rfl⟩ := h
      simp [List.takeWhile_cons, hx, ih hj]

theorem drop_findIdx? {α} {p : α → Bool} :
    ∀ {l : List α} {i : Nat}, l.findIdx? p = some i →
      l.drop i = l.dropWhile (fun a => !p a) := by
  intro l
  induction l with
  | nil => intro i h; simp [List.findIdx?] at h
  | cons x xs ih =>
    intro i h
    rw [findIdx?_cons_zero] at h
    by_cases hx : p x
    · simp [hx] at h
      subst h
      simp [List.dropWhile_cons, hx]
    · simp [hx] at h
      obtain ⟨j, hj, rfl⟩ := h
      simp [List.dropWhile_cons, hx, ih hj]

theorem findIdx?_colon_none_iff (t : List Char) :
    t.findIdx? (· = ':') = none ↔ ':' ∉ t := by
  rw [List.findIdx?_eq_none_iff]
  constructor
  · intro h hmem
    have := h _ hmem
    simp at this
  · intro h x hx
    simp only [decide_eq_false_iff_not]
    intro rfl_eq
    exact h (rfl_eq ▸ hx)

theorem findIdx?_colon_some_of_mem {t : List Char} (h : ':' ∈ t) :
    ∃ i, t.findIdx? (· = ':') = some i := by
  cases hf : t.findIdx? (· = ':') with
  | none => exact absurd h ((findIdx?_colon_none_iff t).mp hf)
  | some i => exact ⟨i, rfl⟩

theorem take_colon_eq_takeWhile {t : List Char} {i : Nat}
    (h : t.findIdx? (· = ':') = some i) :
    t.take i = t.takeWhile (· ≠ ':') := by
  have := take_findIdx? h
  rw [this]
  congr 1
  funext a
  simp

theorem drop_colon_eq_dropWhile {t : List Char} {i : Nat}
    (h : t.findIdx? (· = ':') = some i) :
    t.drop i = t.dropWhile (· ≠ ':') := by
  have := drop_findIdx? h
  rw [this]
  congr 1
  funext a
  simp

theorem is_scheme_invalid_iff (s : List Char) :
    is_scheme_invalid s = true ↔ s = [] ∨ ∃ c ∈ s, isAsciiLowercase c = false := by
  simp [is_scheme_invalid, List.dropWhile_eq_nil_iff]

theorem is_scheme_invalid_eq_false_iff (s : List Char) :
    is_scheme_invalid s = false ↔ s ≠ [] ∧ ∀ c ∈ s, isAsciiLowercase c = true := by
  simp [is_scheme_invalid, List.dropWhile_eq_nil_iff]

/-! Branch lemmas for `get_fallback` -/

theorem get_fallback_found {t : List Char} {colon : Nat}
    (hf : t.findIdx? (· = ':') = some colon) :
    get_fallback t = get_fallback_scheme_found t colon := by
  unfold get_fallback
  rw [hf]

theorem gf_no_colon {t : List Char} (h : ':' ∉ t) :
    get_fallback t = .error .NotAnUrl := by
  unfold get_fallback
  rw [(findIdx?_colon_none_iff t).mpr h]

theorem gf_no_webplus {t : List Char} {colon : Nat}
    (hf : t.findIdx? (· = ':') = some colon)
    (h4 : (t.takeWhile (· ≠ ':')).take 4 ≠ "web+".toList) :
    get_fallback t = .error .NotAnUrl := by
  rw [get_fallback_found hf]
  unfold get_fallback_scheme_found
  rw [take_colon_eq_takeWhile hf]
  rw [if_pos h4]

theorem gf_bad_scheme {t : List Char} {colon : Nat}
    (hf : t.findIdx? (· = ':') = some colon)
    (h4 : (t.takeWhile (· ≠ ':')).take 4 = "web+".toList)
    (hsi : is_scheme_invalid ((t.takeWhile (· ≠ ':')).drop 4) = true) :
    get_fallback t = .error .NotAnUrl := by
  rw [get_fallback_found hf]
  unfold get_fallback_scheme_found
  rw [take_colon_eq_takeWhile hf]
  rw [if_neg (not_not_intro h4), if_pos hsi]

theorem gf_valid_eq_gfTail {t : List Char} {colon : Nat}
    (hf : t.findIdx? (· = ':') = some colon)
    (h4 : (t.takeWhile (· ≠ ':')).take 4 = "web+".toList)
    (hsi : is_scheme_invalid ((t.takeWhile (· ≠ ':')).drop 4) = false) :
    get_fallback t = gfTail t := by
  have hlt := findIdx?_some_lt_length hf
  have htw := take_colon_eq_takeWhile hf
  have h4c : 4 ≤ colon := by
    have hlen : ((t.takeWhile (· ≠ ':')).take 4).length = 4 := by rw [h4]; rfl
    rw [← htw] at hlen
    simp only [List.length_take] at hlen
    omega
  have harg : 4 + ((t.take colon).drop 4).length = colon := by
    simp only [List.length_drop, List.length_take]
    omega
  rw [get_fallback_found hf]
  unfold get_fallback_scheme_found
  rw [take_colon_eq_takeWhile hf]
  rw [if_neg (not_not_intro h4), if_neg (by rw [hsi]; exact Bool.false_ne_true)]
  rw [← take_colon_eq_takeWhile hf, harg, drop_colon_eq_dropWhile hf]
  rfl

theorem gfTail_ne_notAnUrl (t : List Char) : gfTail t ≠ .error .NotAnUrl := by
  unfold gfTail
  dsimp only []
  split_ifs
  · simp
  · simp
  · split
    · simp
    · simp

theorem gfTail_noHandler_iff (t : List Char) :
    (gfTail t = .error .NoHandler ↔ noHandlerSpec t) ∧
    (¬ noHandlerSpec t → ∃ s, gfTail t = .ok s) := by
  unfold gfTail noHandlerSpec rewrittenSpec
  dsimp only []
  split_ifs with h1 h2
  · exact ⟨iff_of_true rfl (Or.inl h1), fun hno => absurd (Or.inl h1) hno⟩
  · exact ⟨iff_of_true rfl (Or.inr (h2.imp id Or.inl)),
      fun hno => absurd (Or.inr (h2.imp id Or.inl)) hno⟩
  · cases hp : url_parse ("https".toList ++ t.dropWhile (· ≠ ':')) with
    | none =>
      exact ⟨iff_of_true rfl (Or.inr (Or.inr (Or.inr rfl))),
        fun hno => absurd (Or.inr (Or.inr (Or.inr rfl))) hno⟩
    | some u =>
      refine ⟨iff_of_false (by simp) ?_, fun _ => ⟨_, rfl⟩⟩
      rintro (hA | hB | hC | hD)
      · exact h1 hA
      · exact h2 (Or.inl hB)
      · exact h2 (Or.inr hC)
      · exact Option.noConfusion hD

theorem gf_ok_imp_gfTail {t s : List Char} (h : get_fallback t = .ok s) :
    gfTail t = .ok s := by
  by_cases hmem : ':' ∈ t
  · obtain ⟨colon, hf⟩ := findIdx?_colon_some_of_mem hmem
    by_cases h4 : (t.takeWhile (· ≠ ':')).take 4 = "web+".toList
    · by_cases hsi : is_scheme_invalid ((t.takeWhile (· ≠ ':')).drop 4) = true
      · rw [gf_bad_scheme hf h4 hsi] at h
        exact Except.noConfusion h
      · have hsi' : is_scheme_invalid ((t.takeWhile (· ≠ ':')).drop 4) = false :=
          Bool.not_eq_true _ ▸ Bool.of_not_eq_true hsi
        rw [← gf_valid_eq_gfTail hf h4 hsi']
        exact h
    · rw [gf_no_webplus hf h4] at h
      exact Except.noConfusion h
  · rw [gf_no_colon hmem] at h
    exact Except.noConfusion h

/-- Inversion of a successful run: the serialized output is the parsed
rewritten URL with the well-known path, cleared credentials, the
`target=` query and no fragment. -/
theorem gfTail_ok_inv {t s : List Char} (h : gfTail t = .ok s) :
    ∃ u, url_parse ("https".toList ++ t.dropWhile (· ≠ ':')) = some u ∧
      s = url_serialize { u with
        path := "/.well-known/protocol-handler".toList,
        username := [], password := none,
        query := some ("target=".toList ++ utf8_percent_encode t),
        fragment := none } := by
  unfold gfTail at h
  dsimp only [] at h
  split_ifs at h
  cases hp : url_parse ("https".toList ++ t.dropWhile (· ≠ ':')) with
    | none =>
      rw [hp] at h
      exact Except.noConfusion h
    | some u =>
      rw [hp] at h
      exact ⟨u, rfl, (Except.ok.inj h).symm⟩


/-- C3: for every input string that passes scheme validation (first colon
present, `web+` prefix, non-empty all-lowercase-ASCII scheme name),
`get_fallback` returns `Err(NoHandler)` if and only if the string
rewritten with prefix `https` does not start with `https://`, or starts
with `https:///`, or starts with `https://\`, or the external URL parser
rejects the rewritten string; otherwise it returns `Ok`. -/
theorem C3_noHandler_iff (t : List Char) (h : schemeValidSpec t) :
    (get_fallback t = .error .NoHandler ↔ noHandlerSpec t) ∧
    (¬ noHandlerSpec t → ∃ s, get_fallback t = .ok s) := by
  obtain ⟨hmem, h4, hne, hall⟩ := h
  obtain ⟨colon, hf⟩ := findIdx?_colon_some_of_mem hmem
  have hsi : is_scheme_invalid ((t.takeWhile (· ≠ ':')).drop 4) = false :=
    (is_scheme_invalid_eq_false_iff _).mpr ⟨hne, hall⟩
  rw [gf_valid_eq_gfTail hf h4 hsi]
  exact gfTail_noHandler_iff t

/-- Witness for C3 at the concrete input `web+example:foo`: the
hypothesis of the claim holds there, and by the theorem the output is `NoHandler`
exactly when the rewritten form misses `https://` — which it does. -/
theorem C3_witness :
    schemeValidSpec "web+example:foo".toList ∧
    get_fallback "web+example:foo".toList = .error .NoHandler := by
  have h : schemeValidSpec "web+example:foo".toList := by
    refine ⟨by decide, by decide, by decide, by decide⟩
  refine ⟨h, ?_⟩
  exact (C3_noHandler_iff _ h).1.mpr (Or.inl (by decide))

/-- C2: for every input string target, `get_fallback target` returns
`Err(NotAnUrl)` if and only if target contains no colon, or the substring
before the first colon does not start with `web+`, or the scheme name
between `web+` and the colon is empty or contains any character that is
not an ASCII lowercase letter. -/
theorem C2_notAnUrl_iff (t : List Char) :
    get_fallback t = .error .NotAnUrl ↔ notAnUrlSpec t := by
  unfold notAnUrlSpec
  by_cases hmem : ':' ∈ t
  · obtain ⟨colon, hf⟩ := findIdx?_colon_some_of_mem hmem
    by_cases h4 : (t.takeWhile (· ≠ ':')).take 4 = "web+".toList
    · by_cases hsi : is_scheme_invalid ((t.takeWhile (· ≠ ':')).drop 4) = true
      · exact iff_of_true (gf_bad_scheme hf h4 hsi)
          (Or.inr (Or.inr ((is_scheme_invalid_iff _).mp hsi)))
      · have hsi' : is_scheme_invalid ((t.takeWhile (· ≠ ':')).drop 4) = false :=
          Bool.not_eq_true _ ▸ Bool.of_not_eq_true hsi
        refine iff_of_false ?_ ?_
        · rw [gf_valid_eq_gfTail hf h4 hsi']
          exact gfTail_ne_notAnUrl t
        · rintro (h | h | h)
          · exact h hmem
          · exact h h4
          · exact hsi ((is_scheme_invalid_iff _).mpr h)
    · exact iff_of_true (gf_no_webplus hf h4) (Or.inr (Or.inl h4))
  · exact iff_of_true (gf_no_colon hmem) (Or.inl hmem)

/-- C5: on success, the query of the returned Fallback URI is built by
percent-encoding the original, unmodified input string target — not the
rewritten string whose `web+<scheme>` prefix was replaced by `https` —
appended after the literal `target=`, and this query replaces any query
present in the input. -/
theorem C5_query_from_original (t s : List Char) (h : get_fallback t = .ok s) :
    ∃ u : Url, s = url_serialize u ∧
      u.query = some ("target=".toList ++ utf8_percent_encode t) := by
  obtain ⟨u, _, hs⟩ := gfTail_ok_inv (gf_ok_imp_gfTail h)
  exact ⟨_, hs, rfl⟩

/-- Witness for C5 at the C1 input. -/
theorem C5_witness :
    ∃ u : Url,
      "https://host:1234/.well-known/protocol-handler?target=web%2Bexample%3A%2F%2Fhost%3A1234%2Fpath%3Fq%3D1%23frag".toList
        = url_serialize u ∧
      u.query = some ("target=".toList ++
        utf8_percent_encode "web+example://host:1234/path?q=1#frag".toList) :=
  C5_query_from_original _ _ (by decide)

/-- C6: `get_fallback` is total on arbitrary well-formed strings: for
every input it returns either `Ok` or one of the two classified errors
and never panics; in particular the `replace_range` bound
`4 + scheme.len()` is exactly the colon position, which is inside the
string, so every slicing operation is in bounds (and on character
boundaries, since the boundary character `:` is ASCII). -/
theorem C6_total (t : List Char) :
    ((∃ s, get_fallback t = .ok s) ∨ get_fallback t = .error .NotAnUrl ∨
      get_fallback t = .error .NoHandler) ∧
    (∀ colon, t.findIdx? (· = ':') = some colon →
      (t.take colon).take 4 = "web+".toList →
      4 + ((t.take colon).drop 4).length = colon ∧ colon < t.length) := by
  constructor
  · cases hr : get_fallback t with
    | ok s => exact Or.inl ⟨s, rfl⟩
    | error e =>
      cases e with
      | NotAnUrl => exact Or.inr (Or.inl rfl)
      | NoHandler => exact Or.inr (Or.inr rfl)
  · intro colon hf h4
    have hlt := findIdx?_some_lt_length hf
    have h4c : 4 ≤ colon := by
      have hlen : ((t.take colon).take 4).length = 4 := by rw [h4]; rfl
      simp only [List.length_take] at hlen
      omega
    refine ⟨?_, hlt⟩
    simp only [List.length_drop, List.length_take]
    omega

/-- Witness for the bounds part of C6 at `web+x:y`, whose first colon is at
index 5. -/
theorem C6_witness :
    4 + ((("web+x:y".toList).take 5).drop 4).length = 5 ∧
    5 < "web+x:y".toList.length :=
  (C6_total "web+x:y".toList).2 5 (by rfl) (by rfl)

/-! The `COMPONENT` set and the encoder -/

theorem component_imp_lt {b : Nat} (h : COMPONENT b = true) : b < 128 := by
  by_contra hc
  push_neg at hc
  have hfalse : COMPONENT b = false := by
    unfold COMPONENT CONTROLS
    simp only [Bool.or_eq_false_iff, decide_eq_false_iff_not]
    omega
  rw [h] at hfalse
  exact Bool.noConfusion hfalse

theorem encodeChar_of_component {c : Char} (h : COMPONENT c.toNat = true) :
    encodeChar c = ['%', hexDigitChar (c.toNat / 16), hexDigitChar (c.toNat % 16)] := by
  have hlt := component_imp_lt h
  have hcond : (decide (c.toNat < 0x80) && COMPONENT c.toNat) = true := by
    simp only [Bool.and_eq_true, h, decide_eq_true_eq]
    exact ⟨hlt, trivial⟩
  unfold encodeChar
  rw [if_pos hcond]

theorem encodeChar_of_not_component {c : Char} (h : COMPONENT c.toNat = false) :
    encodeChar c = [c] := by
  have hcond : (decide (c.toNat < 0x80) && COMPONENT c.toNat) = false := by
    simp [h]
  unfold encodeChar
  rw [if_neg (by simp [hcond])]

/-- C4: the percent-encoding character set `COMPONENT` used by
`get_fallback` consists of exactly the C0 control characters plus the
bytes the claim lists; every byte in this set is escaped as `%XX` by the
encoder, and every byte outside this set is passed through unescaped. -/
theorem C4_component_set :
    (∀ b, b < 256 → (COMPONENT b = true ↔ componentClaimSet b)) ∧
    (∀ c : Char,
      (COMPONENT c.toNat = true →
        encodeChar c = ['%', hexDigitChar (c.toNat / 16), hexDigitChar (c.toNat % 16)]) ∧
      (COMPONENT c.toNat = false → encodeChar c = [c])) := by
  constructor
  · set_option maxRecDepth 8192 in decide
  · intro c
    exact ⟨fun h => encodeChar_of_component h, fun h => encodeChar_of_not_component h⟩

/-- Witness for C4 at concrete bytes: `#` (0x23) is in the set and is
escaped; `a` is outside and passes through. -/
theorem C4_witness :
    (COMPONENT 0x23 = true ↔ componentClaimSet 0x23) ∧
    encodeChar '#' = ['%', hexDigitChar 2, hexDigitChar 3] ∧
    encodeChar 'a' = ['a'] := by
  refine ⟨C4_component_set.1 0x23 (by decide), ?_, ?_⟩
  · exact (C4_component_set.2 '#').1 (by decide)
  · exact (C4_component_set.2 'a').2 (by decide)

theorem hexDigitChar_mem_upper : ∀ n, n < 16 → hexDigitChar n ∈ "0123456789ABCDEF".toList := by
  decide

/-- C9: every percent-escape produced when encoding the target into the
query uses uppercase hexadecimal digits (a space becomes `%20`, a colon
becomes `%3A`, never `%3a`) — the spec leaves the hex case open but the
implementation fixes it to uppercase. -/
theorem C9_uppercase_hex :
    (∀ c : Char, COMPONENT c.toNat = true →
      ∃ d1 d2, encodeChar c = ['%', d1, d2] ∧
        d1 ∈ "0123456789ABCDEF".toList ∧ d2 ∈ "0123456789ABCDEF".toList) ∧
    encodeChar ' ' = "%20".toList ∧ encodeChar ':' = "%3A".toList := by
  refine ⟨?_, by decide, by decide⟩
  intro c h
  have hlt := component_imp_lt h
  exact ⟨hexDigitChar (c.toNat / 16), hexDigitChar (c.toNat % 16),
    encodeChar_of_component h,
    hexDigitChar_mem_upper _ (by omega), hexDigitChar_mem_upper _ (by omega)⟩

/-- Witness for C9 at the colon. -/
theorem C9_witness :
    ∃ d1 d2, encodeChar ':' = ['%', d1, d2] ∧
      d1 ∈ "0123456789ABCDEF".toList ∧ d2 ∈ "0123456789ABCDEF".toList :=
  C9_uppercase_hex.1 ':' (by decide)

/-- C1: for the valid input string `web+example://host:1234/path?q=1#frag`,
`get_fallback` returns `Ok` with a URL whose scheme is `https`, host is
`host`, port is `1234`, path is exactly `/.well-known/protocol-handler`,
which has no fragment and no username/password, and whose query is the
literal `target=` followed by the percent-encoding of the entire original
input string under the `COMPONENT` set. -/
theorem C1_roundtrip :
    ∃ u : Url,
      get_fallback "web+example://host:1234/path?q=1#frag".toList = .ok (url_serialize u) ∧
      u.scheme = "https".toList ∧
      u.host = "host".toList ∧
      u.port = some 1234 ∧
      u.path = "/.well-known/protocol-handler".toList ∧
      u.fragment = none ∧
      u.username = [] ∧ u.password = none ∧
      u.query = some ("target=".toList ++
        utf8_percent_encode "web+example://host:1234/path?q=1#frag".toList) := by
  refine ⟨{ scheme := "https".toList, username := [], password := none,
            host := "host".toList, port := some 1234,
            path := "/.well-known/protocol-handler".toList,
            query := some "target=web%2Bexample%3A%2F%2Fhost%3A1234%2Fpath%3Fq%3D1%23frag".toList,
            fragment := none }, ?_, rfl, rfl, rfl, rfl, rfl, rfl, rfl, ?_⟩
  · rfl
  · rfl

/-- C7: the input `web+example://bar\baz` — a backslash after a non-empty
authority — is accepted by `get_fallback` (returns `Ok`), with the
backslash treated as a path separator so the host of the resulting URL is
`bar`; only a backslash immediately at the authority position (rewritten
form starting with `https://\`) is rejected. -/
theorem C7_backslash_after_authority :
    (∃ u : Url,
      get_fallback "web+example://bar\\baz".toList = .ok (url_serialize u) ∧
      u.host = "bar".toList) ∧
    get_fallback "web+example://\\x".toList = .error .NoHandler := by
  refine ⟨⟨{ scheme := "https".toList, username := [], password := none,
             host := "bar".toList, port := none,
             path := "/.well-known/protocol-handler".toList,
             query := some "target=web%2Bexample%3A%2F%2Fbar%5Cbaz".toList,
             fragment := none }, ?_, rfl⟩, ?_⟩
  · rfl
  · rfl

/-! No `#` in a successful output (C10) -/

theorem digitChar_ne_hash : ∀ m, m < 10 → Char.ofNat (0x30 + m) ≠ '#' := by
  decide

theorem hexDigitChar_ne_hash : ∀ n, n < 16 → hexDigitChar n ≠ '#' := by
  decide

theorem hash_not_mem_natDigitsAux : ∀ (fuel n : Nat), '#' ∉ natDigitsAux n fuel := by
  intro fuel
  induction fuel with
  | zero => intro n h; simp [natDigitsAux] at h
  | succ f ih =>
    intro n h
    unfold natDigitsAux at h
    split_ifs at h with hn
    · exact digitChar_ne_hash n hn (List.mem_singleton.mp h).symm
    · rcases List.mem_append.mp h with h1 | h2
      · exact ih _ h1
      · exact digitChar_ne_hash (n % 10) (Nat.mod_lt _ (by omega))
          (List.mem_singleton.mp h2).symm

theorem hash_not_mem_natDigits (n : Nat) : '#' ∉ natDigits n :=
  hash_not_mem_natDigitsAux _ _

theorem hash_not_mem_encode (t : List Char) : '#' ∉ utf8_percent_encode t := by
  intro h
  unfold utf8_percent_encode at h
  rw [List.mem_flatMap] at h
  obtain ⟨c, _, hc⟩ := h
  unfold encodeChar at hc
  split_ifs at hc with hcond
  · have hparts : c.toNat < 0x80 ∧ COMPONENT c.toNat = true := by simpa using hcond
    have hlt : c.toNat < 0x80 := hparts.1
    have hc' : '#' = '%' ∨ '#' = hexDigitChar (c.toNat / 16) ∨
        '#' = hexDigitChar (c.toNat % 16) := by simpa using hc
    rcases hc' with h1 | h1 | h1
    · exact absurd h1 (by decide)
    · exact hexDigitChar_ne_hash _ (by omega) h1.symm
    · exact hexDigitChar_ne_hash _ (by omega) h1.symm
  · have hceq : c = '#' := (List.mem_singleton.mp hc).symm
    subst hceq
    exact hcond (by decide)

theorem hash_not_mem_serialize (u : Url)
    (hsch : '#' ∉ u.scheme) (hh : '#' ∉ u.host)
    (hq : ∀ q, u.query = some q → '#' ∉ q)
    (hu : u.username = []) (hpw : u.password = none)
    (hp : u.path = "/.well-known/protocol-handler".toList)
    (hf : u.fragment = none) :
    '#' ∉ url_serialize u := by
  intro hmem
  unfold url_serialize at hmem
  rw [hu, hpw, hp, hf] at hmem
  cases hport : u.port with
  | none =>
    rw [hport] at hmem
    cases hquery : u.query with
    | none =>
      rw [hquery] at hmem
      simp only [List.mem_append] at hmem
      rcases hmem with ((((((hm | hm) | hm) | hm) | hm) | hm) | hm) | hm
      · exact hsch hm
      · exact absurd hm (by decide)
      · simp at hm
      · exact hh hm
      · simp at hm
      · exact absurd hm (by decide)
      · simp at hm
      · simp at hm
    | some q =>
      rw [hquery] at hmem
      simp only [List.mem_append] at hmem
      rcases hmem with ((((((hm | hm) | hm) | hm) | hm) | hm) | hm) | hm
      · exact hsch hm
      · exact absurd hm (by decide)
      · simp at hm
      · exact hh hm
      · simp at hm
      · exact absurd hm (by decide)
      · rcases List.mem_cons.mp hm with h1 | h1
        · exact absurd h1 (by decide)
        · exact hq q hquery h1
      · simp at hm
  | some prt =>
    rw [hport] at hmem
    cases hquery : u.query with
    | none =>
      rw [hquery] at hmem
      simp only [List.mem_append] at hmem
      rcases hmem with ((((((hm | hm) | hm) | hm) | hm) | hm) | hm) | hm
      · exact hsch hm
      · exact absurd hm (by decide)
      · simp at hm
      · exact hh hm
      · rcases List.mem_cons.mp hm with h1 | h1
        · exact absurd h1 (by decide)
        · exact hash_not_mem_natDigits prt h1
      · exact absurd hm (by decide)
      · simp at hm
      · simp at hm
    | some q =>
      rw [hquery] at hmem
      simp only [List.mem_append] at hmem
      rcases hmem with ((((((hm | hm) | hm) | hm) | hm) | hm) | hm) | hm
      · exact hsch hm
      · exact absurd hm (by decide)
      · simp at hm
      · exact hh hm
      · rcases List.mem_cons.mp hm with h1 | h1
        · exact absurd h1 (by decide)
        · exact hash_not_mem_natDigits prt h1
      · exact absurd hm (by decide)
      · rcases List.mem_cons.mp hm with h1 | h1
        · exact absurd h1 (by decide)
        · exact hq q hquery h1
      · simp at hm

theorem parseHostPort_host_subset {hp host : List Char} {port : Option Nat}
    (h : parseHostPort hp = some (host, port)) : host ⊆ hp := by
  unfold parseHostPort at h
  dsimp only [] at h
  split_ifs at h with h1 h2
  · rw [Option.map_eq_some'] at h
    obtain ⟨p, _, hpair⟩ := h
    rw [Prod.mk.injEq] at hpair
    obtain ⟨hhost, _⟩ := hpair
    subst hhost
    intro x hx
    rw [List.mem_reverse] at hx
    have hx2 := List.drop_subset _ _ hx
    have hx3 := List.dropWhile_subset _ hx2
    rw [List.mem_reverse] at hx3
    exact hx3
  · have hpair := Option.some.inj h
    rw [Prod.mk.injEq] at hpair
    obtain ⟨hhost, _⟩ := hpair
    subst hhost
    exact fun x hx => hx

theorem url_parse_inv {s : List Char} {u : Url} (h : url_parse s = some u) :
    u.scheme = "https".toList ∧ ∀ c ∈ u.host, authEndChar c = false := by
  unfold url_parse at h
  by_cases h8 : s.take 8 = "https://".toList
  · rw [if_pos h8] at h
    dsimp only [] at h
    cases hph : parseHostPort (afterLastAt ((s.drop 8).takeWhile (fun c => !(authEndChar c)))) with
    | none =>
      rw [hph] at h
      exact Option.noConfusion h
    | some pr =>
      obtain ⟨host, port⟩ := pr
      rw [hph] at h
      have hu := Option.some.inj h
      constructor
      · rw [← hu]
      · intro c hc
        rw [← hu] at hc
        have hc' : c ∈ host := hc
        have h1 : c ∈ afterLastAt ((s.drop 8).takeWhile (fun c => !(authEndChar c))) :=
          parseHostPort_host_subset hph hc'
        have h2 : c ∈ (s.drop 8).takeWhile (fun c => !(authEndChar c)) := by
          unfold afterLastAt at h1
          rw [List.mem_reverse] at h1
          have := List.takeWhile_subset _ h1
          rw [List.mem_reverse] at this
          exact this
        have h3 := List.mem_takeWhile_imp h2
        simpa using h3
  · rw [if_neg h8] at h
    exact Option.noConfusion h

/-- C10: for every input on which `get_fallback` succeeds, the returned
Fallback URI string contains no `#` character: the fragment is cleared,
and any `#` in the original target is percent-escaped in the query
because `#` is a member of the `COMPONENT` set. -/
theorem C10_no_hash (t s : List Char) (h : get_fallback t = .ok s) : '#' ∉ s := by
  obtain ⟨u, hpu, hs⟩ := gfTail_ok_inv (gf_ok_imp_gfTail h)
  obtain ⟨hscheme, hhost⟩ := url_parse_inv hpu
  subst hs
  apply hash_not_mem_serialize
  · show '#' ∉ u.scheme
    rw [hscheme]
    decide
  · show '#' ∉ u.host
    intro hc
    exact absurd (hhost _ hc) (by decide)
  · intro q hq2
    have hq3 : some ("target=".toList ++ utf8_percent_encode t) = some q := hq2
    rw [← Option.some.inj hq3]
    intro hm
    rcases List.mem_append.mp hm with h1 | h1
    · exact absurd h1 (by decide)
    · exact hash_not_mem_encode t h1
  · rfl
  · rfl
  · rfl
  · rfl

/-- Witness for C10 at the C7 input. -/
theorem C10_witness :
    '#' ∉ "https://bar/.well-known/protocol-handler?target=web%2Bexample%3A%2F%2Fbar%5Cbaz".toList :=
  C10_no_hash "web+example://bar\\baz".toList _ (by decide)

/-! The dispatch entry point returns exactly 0 or 1 (C8) -/

theorem fc_inner_false_iff (p : Platform) (uri : List Char) :
    fc_open_uri_inner p uri = false ↔ dispatchFails p uri := by
  unfold fc_open_uri_inner dispatchFails
  cases hg : get_fallback uri with
  | error e =>
    exact iff_of_true rfl (Or.inl ⟨e, rfl⟩)
  | ok fb =>
    constructor
    · intro h
      refine Or.inr ⟨fb, rfl, ?_⟩
      simp only [Bool.and_eq_false_iff] at h
      tauto
    · rintro (⟨e, he⟩ | ⟨fb2, hfb2, hor⟩)
      · exact Except.noConfusion he
      · have hfb : fb = fb2 := Except.ok.inj hfb2
        subst hfb
        rcases hor with h1 | h1 | h1 | h1 | h1 <;> simp [h1]

/-- C8: `fc_open_uri` returns the 32-bit integer `0` when the input byte
sequence is not valid UTF-8, when `get_fallback` fails with either error
kind, when parsing either the original target or the computed fallback
into the platform URI representation fails, or when the platform launch
request fails synchronously; it returns `1` in every other case, and
never returns any other value. -/
theorem C8_status_code (p : Platform) (bytes : List Nat) :
    (fc_open_uri p bytes = 0 ∨ fc_open_uri p bytes = 1) ∧
    (fc_open_uri p bytes = 0 ↔
      utf8Decode bytes = none ∨
      ∃ uri, utf8Decode bytes = some uri ∧ dispatchFails p uri) := by
  unfold fc_open_uri
  cases hd : utf8Decode bytes with
  | none =>
    exact ⟨Or.inl rfl, iff_of_true rfl (Or.inl rfl)⟩
  | some uri =>
    dsimp only []
    cases hi : fc_open_uri_inner p uri with
    | false =>
      refine ⟨Or.inl (by simp), ?_⟩
      constructor
      · intro _
        exact Or.inr ⟨uri, rfl, (fc_inner_false_iff p uri).mp hi⟩
      · intro _
        simp
    | true =>
      refine ⟨Or.inr (by simp), ?_⟩
      constructor
      · intro h0
        simp at h0
      · rintro (hnone | ⟨uri2, huri2, hfails⟩)
        · exact Option.noConfusion hnone
        · have huri : uri = uri2 := Option.some.inj huri2
          subst huri
          have := (fc_inner_false_iff p uri).mpr hfails
          rw [hi] at this
          exact Bool.noConfusion this

/-- Witness for C2 at the concrete colonless input `nocolon`. -/
theorem C2_witness :
    get_fallback "nocolon".toList = .error .NotAnUrl ↔ notAnUrlSpec "nocolon".toList :=
  C2_notAnUrl_iff "nocolon".toList

/-- Witness for C8 at an always-succeeding platform and the single byte
`n`, which decodes but has no colon, so the entry point returns `0`. -/
theorem C8_witness :
    fc_open_uri ⟨fun _ => true, true, fun _ => true, fun _ _ => true⟩ [0x6E] = 0 ∨
    fc_open_uri ⟨fun _ => true, true, fun _ => true, fun _ _ => true⟩ [0x6E] = 1 :=
  (C8_status_code ⟨fun _ => true, true, fun _ => true, fun _ _ => true⟩ [0x6E]).1

end FcDll
